import Mathlib

/-!
Formal model of the Apache Milagro MPC library core: the multiplicative-to-additive
(MtA) share conversion and its zero-knowledge proofs, declared in
include/amcl/mta.h and include/amcl/mpc.h.  The implementation files (mta.c,
mpc.c, and the paillier / commitments / ecp backends) are not in the tree, so
function bodies are modelled from the specification (spec.md) and the algorithm
descriptions in the header documentation.  Machine bignums are modelled as
unbounded naturals with explicit modular reduction; octets are big-endian byte
lists; fallible operations return an explicit status code.
-/

namespace Milagro

/-- Return code for a successfully verified proof (mta.h MTA_OK). -/
def MTA_OK : ℕ := 0

/-- Return code for an invalid proof (mta.h MTA_FAIL). -/
def MTA_FAIL : ℕ := 61

/-- Return code for an invalid elliptic curve point (mta.h MTA_INVALID_ECP). -/
def MTA_INVALID_ECP : ℕ := 62

/-- Modelled from the spec: fixed-width big-endian serialization of a natural
number to `w` bytes, left-zero-padded (spec 4.A: "egress is length-exact,
zero-padded on the left"; the FF_2048/FF_4096 toOctet routines are not under
src/). -/
def toBE : ℕ → ℕ → List ℕ
  | 0, _ => []
  | w + 1, n => toBE w (n / 256) ++ [n % 256]

/-- Modelled from the spec: big-endian interpretation of a byte string as a
natural number (spec 4.A ingest; the FF fromOctet routines are not under src/). -/
def fromBE (l : List ℕ) : ℕ := l.foldl (fun a b => a * 256 + b) 0

/-- Modular exponentiation, the modular-exponentiation service of the bignum
trait (spec 6). -/
def powMod (b e n : ℕ) : ℕ := b ^ e % n

/-- Modular inverse, the inverse service of the bignum trait (spec 6), found by
exhaustive search; returns 0 when no inverse exists. -/
def invMod (a n : ℕ) : ℕ := ((List.range n).find? fun b => a * b % n == 1).getD 0

/-- Modelled from the spec: a csprng handle, as the stream of values the
generator will produce (spec 6 rng trait; amcl.h csprng is not under src/). -/
abbrev csprng := List ℕ

/-- Modelled from the spec: Paillier public key (paillier.h is not under src/):
`n` is the ~2048-bit modulus, `g` the base, canonically n+1 (spec 3). -/
structure PAILLIER_public_key where
  n : ℕ
  g : ℕ

/-- Modelled from the spec: Paillier private key, "passed only as an opaque
capability with decrypt" (spec 3); `n` is the public modulus and `dec` the
decryption capability (paillier.h is not under src/). -/
structure PAILLIER_private_key where
  n : ℕ
  dec : ℕ → ℕ

/-- Modelled from the spec: Paillier encryption Enc(m; r) = g^m · r^N mod N²
(spec glossary and spec 6, encrypt_with_r; paillier.c is not under src/). -/
def PAILLIER_ENCRYPT (pub : PAILLIER_public_key) (m r : ℕ) : ℕ :=
  powMod pub.g m (pub.n * pub.n) * powMod r pub.n (pub.n * pub.n) % (pub.n * pub.n)

/-- Modelled from the spec: textbook Paillier decryption with explicit key
material, Dec(c) = L(c^λ mod N²)·μ mod N with L(u) = (u − 1)/N (spec 3 and 6
decrypt; paillier.c is not under src/). -/
def PAILLIER_DECRYPT (n lam mu c : ℕ) : ℕ :=
  (powMod c lam (n * n) - 1) / n * mu % n

/-- Soundness contract of the Paillier trait (spec 6): the private key shares
the public modulus, and decryption inverts encryption for plaintexts below n
and encryption randomness in Z*_n. -/
def PaillierSound (pub : PAILLIER_public_key) (priv : PAILLIER_private_key) : Prop :=
  priv.n = pub.n ∧ ∀ m < pub.n, ∀ r < pub.n, Nat.Coprime r pub.n →
    priv.dec (PAILLIER_ENCRYPT pub m r) = m

namespace Mta

/-- Client MtA first pass (mta.h MPC_MTA_CLIENT1).  Modelled from the spec
(4.B mta_client1, mta.c is not under src/): CA = Enc(a; r); the sampled (or,
with a NULL RNG, the supplied) Paillier randomness is retained by the client.
Returns (CA, r used). -/
def MPC_MTA_CLIENT1 (RNG : Option csprng) (PUB : PAILLIER_public_key) (A R : ℕ) : ℕ × ℕ :=
  let r := match RNG with
    | none => R
    | some s => s.headI % PUB.n
  (PAILLIER_ENCRYPT PUB A r, r)

/-- Server MtA (mta.h MPC_MTA_SERVER).  Modelled from the spec (4.B mta_server,
mta.c is not under src/): draw z in [0, q) and r' in Z*_N (or, with a NULL RNG,
read the supplied Z and R), CB = CA^b · Enc(z; r') mod N², β = (−z) mod q.
Returns (CB, BETA, z used, r used). -/
def MPC_MTA_SERVER (RNG : Option csprng) (PUB : PAILLIER_public_key)
    (q B CA Z R : ℕ) : ℕ × ℕ × ℕ × ℕ :=
  let z := match RNG with
    | none => Z
    | some s => s.headI % q
  let r := match RNG with
    | none => R
    | some s => s.getD 1 0 % PUB.n
  (powMod CA B (PUB.n * PUB.n) * PAILLIER_ENCRYPT PUB z r % (PUB.n * PUB.n),
   (q - z % q) % q, z, r)

/-- Client MtA second pass (mta.h MPC_MTA_CLIENT2).  Modelled from the spec
(4.B mta_client2, mta.c is not under src/): α = Dec(CB) mod q. -/
def MPC_MTA_CLIENT2 (PRIV : PAILLIER_private_key) (q CB : ℕ) : ℕ :=
  PRIV.dec CB % q

/-- Sum of MtA shares (mta.h MPC_SUM_MTA).  Modelled from the spec (4.B
mta_sum, mta.c is not under src/): sum = a·b + α + β mod q. -/
def MPC_SUM_MTA (q A B ALPHA BETA : ℕ) : ℕ := (A * B + ALPHA + BETA) % q

end Mta

/-! Algebraic facts about the modelled Paillier layer, used to settle the MtA
round-trip claim. -/

/-- In a commutative ring, a square-zero perturbation moves a power by its
first-order term only. -/
theorem pow_add_of_sq_eq_zero {R : Type} [CommRing R] (a c : R) (h : c * c = 0) :
    ∀ m : ℕ, (a + c) ^ m = a ^ m + m * a ^ (m - 1) * c := by
  intro m
  induction m with
  | zero => simp
  | succ k ih =>
    have hk : (k : R) * a ^ (k - 1) * a = k * a ^ k := by
      cases k with
      | zero => simp
      | succ j =>
        have hj : j + 1 - 1 = j := rfl
        rw [hj, mul_assoc, ← pow_succ]
    calc (a + c) ^ (k + 1) = (a ^ k + k * a ^ (k - 1) * c) * (a + c) := by
          rw [pow_succ, ih]
      _ = a ^ (k + 1) + (k * a ^ (k - 1) * a) * c + a ^ k * c
            + (k * a ^ (k - 1)) * (c * c) := by ring
      _ = a ^ (k + 1) + (↑(k + 1)) * a ^ (k + 1 - 1) * c := by
          rw [hk, h, Nat.add_sub_cancel]
          push_cast
          ring

/-- The modulus is a square-zero element of Z_{n²}. -/
theorem n_mul_n_eq_zero (n : ℕ) : (n : ZMod (n * n)) * n = 0 := by
  rw [← Nat.cast_mul, ZMod.natCast_self]

/-- The Paillier base n+1 satisfies (n+1)^m = 1 + m·n in Z_{n²}. -/
theorem paillier_base_pow (n m : ℕ) :
    ((n : ZMod (n * n)) + 1) ^ m = 1 + m * n := by
  have key := pow_add_of_sq_eq_zero (1 : ZMod (n * n)) (n : ZMod (n * n))
    (n_mul_n_eq_zero n) m
  rw [add_comm (1 : ZMod (n * n)) (n : ZMod (n * n))] at key
  rw [key]
  simp

/-- Powers of the Paillier base only depend on the exponent mod n. -/
theorem paillier_base_pow_mod (n m : ℕ) :
    ((n : ZMod (n * n)) + 1) ^ m = ((n : ZMod (n * n)) + 1) ^ (m % n) := by
  rw [paillier_base_pow, paillier_base_pow]
  have hm : ((m : ZMod (n * n))) * n = ((m % n : ℕ) : ZMod (n * n)) * n := by
    conv_lhs => rw [← Nat.div_add_mod m n]
    push_cast
    linear_combination ((m / n : ℕ) : ZMod (n * n)) * n_mul_n_eq_zero n
  rw [hm]

/-- The n-th power map on Z_{n²} only depends on the base mod n. -/
theorem paillier_rand_pow_mod (n r : ℕ) :
    ((r : ZMod (n * n))) ^ n = ((r % n : ℕ) : ZMod (n * n)) ^ n := by
  have hsq : ((n : ZMod (n * n)) * (r / n : ℕ)) * ((n : ZMod (n * n)) * (r / n : ℕ)) = 0 := by
    linear_combination (((r / n : ℕ) : ZMod (n * n)) * ((r / n : ℕ) : ZMod (n * n))) *
      n_mul_n_eq_zero n
  have key := pow_add_of_sq_eq_zero ((r % n : ℕ) : ZMod (n * n))
    ((n : ZMod (n * n)) * (r / n : ℕ)) hsq n
  have hr : (r : ZMod (n * n)) =
      ((r % n : ℕ) : ZMod (n * n)) + (n : ZMod (n * n)) * (r / n : ℕ) := by
    conv_lhs => rw [← Nat.div_add_mod r n]
    push_cast
    ring
  rw [hr, key]
  linear_combination (((r % n : ℕ) : ZMod (n * n)) ^ (n - 1) * ((r / n : ℕ) : ZMod (n * n))) *
    n_mul_n_eq_zero n

/-- Casting a modular power into ZMod strips the reduction. -/
theorem powMod_cast (b e n : ℕ) : ((powMod b e n : ℕ) : ZMod n) = (b : ZMod n) ^ e := by
  unfold powMod
  push_cast [ZMod.natCast_mod]
  rfl

/-- Naturals below the modulus that agree in ZMod are equal. -/
theorem nat_eq_of_zmod_eq {n a b : ℕ} (h : (a : ZMod n) = b) (ha : a < n) (hb : b < n) :
    a = b := by
  have := congrArg ZMod.val h
  rwa [ZMod.val_cast_of_lt ha, ZMod.val_cast_of_lt hb] at this

/-- Casting a Paillier ciphertext into Z_{n²} yields g^m · r^n. -/
theorem PAILLIER_ENCRYPT_cast (pub : PAILLIER_public_key) (m r : ℕ) :
    ((PAILLIER_ENCRYPT pub m r : ℕ) : ZMod (pub.n * pub.n)) =
      (pub.g : ZMod (pub.n * pub.n)) ^ m * (r : ZMod (pub.n * pub.n)) ^ pub.n := by
  unfold PAILLIER_ENCRYPT
  push_cast [ZMod.natCast_mod, powMod_cast]
  rfl

/-- A residue coprime to the modulus stays coprime after reduction. -/
theorem coprime_mod_of_coprime {x n : ℕ} (h : Nat.Coprime x n) :
    Nat.Coprime (x % n) n := by
  unfold Nat.Coprime at *
  rw [← Nat.gcd_rec, Nat.gcd_comm]
  exact h

/-- The homomorphic identity behind the MtA reply: CA^b · Enc(z; r') is again a
canonical Paillier ciphertext, of plaintext a·b + z mod n with randomness
r^b·r' mod n. -/
theorem mta_reply_is_ciphertext (pub : PAILLIER_public_key) (a b z r r' : ℕ)
    (hg : pub.g = pub.n + 1) (hn : 0 < pub.n) :
    powMod (PAILLIER_ENCRYPT pub a r) b (pub.n * pub.n) * PAILLIER_ENCRYPT pub z r'
        % (pub.n * pub.n) =
      PAILLIER_ENCRYPT pub ((a * b + z) % pub.n) (r ^ b * r' % pub.n) := by
  have hn2 : 0 < pub.n * pub.n := Nat.mul_pos hn hn
  apply nat_eq_of_zmod_eq _ (Nat.mod_lt _ hn2) (Nat.mod_lt _ hn2)
  push_cast [ZMod.natCast_mod, powMod_cast, PAILLIER_ENCRYPT_cast]
  rw [hg]
  push_cast
  have lhs_eq :
      (((pub.n : ZMod (pub.n * pub.n)) + 1) ^ a * (r : ZMod (pub.n * pub.n)) ^ pub.n) ^ b *
        (((pub.n : ZMod (pub.n * pub.n)) + 1) ^ z * (r' : ZMod (pub.n * pub.n)) ^ pub.n) =
      ((pub.n : ZMod (pub.n * pub.n)) + 1) ^ (a * b + z) *
        (((r : ZMod (pub.n * pub.n)) ^ b * r') ^ pub.n) := by
    ring
  rw [lhs_eq, paillier_base_pow_mod pub.n (a * b + z),
    ← paillier_rand_pow_mod pub.n (r ^ b * r')]
  push_cast
  ring

/-- Claim C1: for a, b, z in [0, q), honest randomness r, r' in Z*_N and a sound
Paillier key pair with canonical base and modulus above q² + q, the sender's
ALPHA (= MPC_MTA_CLIENT2 of the CB produced by MPC_MTA_SERVER on the CA
produced by MPC_MTA_CLIENT1) and the receiver's BETA (= (−z) mod q) satisfy
ALPHA + BETA ≡ a·b (mod q). -/
theorem mta_round_alpha_beta (pub : PAILLIER_public_key) (priv : PAILLIER_private_key)
    (q a b z r r' : ℕ)
    (hsound : PaillierSound pub priv) (hg : pub.g = pub.n + 1)
    (hq : 0 < q) (hqn : q * q + q ≤ pub.n)
    (ha : a < q) (hb : b < q) (hz : z < q)
    (hr : Nat.Coprime r pub.n) (hr' : Nat.Coprime r' pub.n) :
    (Mta.MPC_MTA_CLIENT2 priv q
        (Mta.MPC_MTA_SERVER none pub q b (Mta.MPC_MTA_CLIENT1 none pub a r).1 z r').1
      + (Mta.MPC_MTA_SERVER none pub q b (Mta.MPC_MTA_CLIENT1 none pub a r).1 z r').2.1)
      % q = a * b % q := by
  have hn : 0 < pub.n := by omega
  have hCB : (Mta.MPC_MTA_SERVER none pub q b (Mta.MPC_MTA_CLIENT1 none pub a r).1 z r').1 =
      PAILLIER_ENCRYPT pub ((a * b + z) % pub.n) (r ^ b * r' % pub.n) := by
    show powMod (PAILLIER_ENCRYPT pub a r) b (pub.n * pub.n) * PAILLIER_ENCRYPT pub z r'
        % (pub.n * pub.n) = _
    exact mta_reply_is_ciphertext pub a b z r r' hg hn
  have habz : a * b + z < pub.n := by nlinarith
  have hdec : priv.dec (PAILLIER_ENCRYPT pub ((a * b + z) % pub.n) (r ^ b * r' % pub.n)) =
      (a * b + z) % pub.n := by
    refine hsound.2 _ (Nat.mod_lt _ hn) _ (Nat.mod_lt _ hn) ?_
    exact coprime_mod_of_coprime ((hr.pow_left b).mul hr')
  have hBETA : (Mta.MPC_MTA_SERVER none pub q b (Mta.MPC_MTA_CLIENT1 none pub a r).1 z r').2.1 =
      (q - z % q) % q := rfl
  rw [hBETA, hCB]
  simp only [Mta.MPC_MTA_CLIENT2]
  rw [hdec, Nat.mod_eq_of_lt habz, Nat.mod_eq_of_lt hz, ← Nat.add_mod]
  have hsum : a * b + z + (q - z) = a * b + q := by omega
  rw [hsum, Nat.add_mod_right]

/-- Toy Paillier public key with n = 15 = 3·5 and canonical base g = 16,
used to instantiate the trait-level hypotheses on concrete inputs. -/
def toyPub : PAILLIER_public_key := ⟨15, 16⟩

/-- Toy Paillier private key for n = 15: λ = lcm(2,4) = 4 and μ = 4, with the
textbook decryption L(c^λ mod n²)·μ mod n as the capability. -/
def toyPriv : PAILLIER_private_key := ⟨15, PAILLIER_DECRYPT 15 4 4⟩

/-! Range Proof layer (mta.h, Range Proof API).  The BC modulus types come
from commitments.h, which is not under src/. -/

/-- Modelled from the spec: public part of the verifier's Blum-Williams (BC)
modulus (spec 3): Ñ (`nt`) and the Pedersen bases h₁, h₂ (commitments.h
COMMITMENTS_BC_pub_modulus is not under src/). -/
structure COMMITMENTS_BC_pub_modulus where
  nt : ℕ
  h1 : ℕ
  h2 : ℕ

/-- Modelled from the spec: private side of the BC modulus as the verifier
sees it; only Ñ, h₁, h₂ enter the verification equations (commitments.h
COMMITMENTS_BC_priv_modulus is not under src/; its CRT acceleration data is
irrelevant to the computed values). -/
structure COMMITMENTS_BC_priv_modulus where
  nt : ℕ
  h1 : ℕ
  h2 : ℕ

/-- Secret random values for the Range Proof commitment (mta.h
MTA_RP_commitment_rv). -/
structure MTA_RP_commitment_rv where
  alpha : ℕ
  beta : ℕ
  gamma : ℕ
  rho : ℕ

/-- Public commitment for the Range Proof (mta.h MTA_RP_commitment). -/
structure MTA_RP_commitment where
  z : ℕ
  u : ℕ
  w : ℕ

/-- Range Proof (mta.h MTA_RP_proof). -/
structure MTA_RP_proof where
  s : ℕ
  s1 : ℕ
  s2 : ℕ

/-- Commitment generation for the Range Proof (mta.h MTA_RP_commit).  Modelled
from the spec (4.C Commit, mta.c is not under src/): sample α ∈ [0,q³),
β ∈ [0,N), γ ∈ [0,q³Ñ), ρ ∈ [0,qÑ) — or, with a NULL RNG, read the supplied
rv — then z = h₁^m h₂^ρ mod Ñ, u = g^α β^N mod N², w = h₁^α h₂^γ mod Ñ, with
g = N+1 the canonical base of the prover's key.  Returns the commitment and
the rv used. -/
def MTA_RP_commit (RNG : Option csprng) (key : PAILLIER_private_key)
    (bc : COMMITMENTS_BC_pub_modulus) (q M : ℕ) (rv : MTA_RP_commitment_rv) :
    MTA_RP_commitment × MTA_RP_commitment_rv :=
  let rvu : MTA_RP_commitment_rv := match RNG with
    | none => rv
    | some s => ⟨s.getD 0 0 % q ^ 3, s.getD 1 0 % key.n,
                 s.getD 2 0 % (q ^ 3 * bc.nt), s.getD 3 0 % (q * bc.nt)⟩
  (⟨powMod bc.h1 M bc.nt * powMod bc.h2 rvu.rho bc.nt % bc.nt,
    powMod (key.n + 1) rvu.alpha (key.n * key.n) *
      powMod rvu.beta key.n (key.n * key.n) % (key.n * key.n),
    powMod bc.h1 rvu.alpha bc.nt * powMod bc.h2 rvu.gamma bc.nt % bc.nt⟩, rvu)

/-- Proof generation for the Range Proof (mta.h MTA_RP_prove).  Modelled from
the spec (4.C Prove, mta.c is not under src/): s = β·r^e mod N, s₁ = e·m + α,
s₂ = e·ρ + γ (integers, not reduced). -/
def MTA_RP_prove (key : PAILLIER_private_key) (rv : MTA_RP_commitment_rv)
    (M R E : ℕ) : MTA_RP_proof :=
  ⟨rv.beta * powMod R E key.n % key.n, E * M + rv.alpha, E * rv.rho + rv.gamma⟩

/-- Proof verification for the Range Proof (mta.h MTA_RP_verify).  Modelled
from the spec (4.C Verify, mta.c is not under src/): accept, returning MTA_OK,
iff s₁ ≤ q³, w = h₁^{s₁}h₂^{s₂}z^{−e} mod Ñ and u = g^{s₁}s^{N}CT^{−e} mod N²;
return MTA_FAIL otherwise. -/
def MTA_RP_verify (key : PAILLIER_public_key) (bc : COMMITMENTS_BC_priv_modulus)
    (q CT E : ℕ) (c : MTA_RP_commitment) (p : MTA_RP_proof) : ℕ :=
  if p.s1 ≤ q ^ 3 ∧
      c.w = powMod bc.h1 p.s1 bc.nt * powMod bc.h2 p.s2 bc.nt % bc.nt *
        powMod (invMod c.z bc.nt) E bc.nt % bc.nt ∧
      c.u = powMod key.g p.s1 (key.n * key.n) * powMod p.s key.n (key.n * key.n)
          % (key.n * key.n) *
        powMod (invMod CT (key.n * key.n)) E (key.n * key.n) % (key.n * key.n)
  then MTA_OK else MTA_FAIL

/-- Clean the memory containing the Range Proof random values (mta.h
MTA_RP_commitment_rv_kill).  Modelled from the spec (invariant 3 and 8:
zeroization; mta.c is not under src/): every secret component reads as zero
afterwards. -/
def MTA_RP_commitment_rv_kill (rv : MTA_RP_commitment_rv) : MTA_RP_commitment_rv :=
  ⟨0, 0, 0, 0⟩

/-- The modular inverse found by invMod is a genuine inverse when the argument
is coprime to the modulus. -/
theorem invMod_mul_mod {a n : ℕ} (h : Nat.Coprime a n) (hn : 1 < n) :
    a * invMod a n % n = 1 := by
  obtain ⟨m, hm⟩ := Nat.exists_mul_emod_eq_one_of_coprime h hn
  have hcong : a * (m % n) ≡ a * m [MOD n] :=
    Nat.ModEq.mul_left a (Nat.mod_modEq m n)
  have hm' : a * (m % n) % n = 1 := by
    unfold Nat.ModEq at hcong
    rw [hcong, hm]
  have hsome : ((List.range n).find? fun b => a * b % n == 1).isSome := by
    rw [List.find?_isSome]
    exact ⟨m % n, List.mem_range.mpr (Nat.mod_lt _ (by omega)), by simpa using hm'⟩
  obtain ⟨b₀, hb₀⟩ := Option.isSome_iff_exists.mp hsome
  have hp := List.find?_some hb₀
  unfold invMod
  rw [hb₀, Option.getD_some]
  simpa using hp

/-- The modular inverse found by invMod casts to the ZMod inverse when the
argument is coprime to the modulus. -/
theorem invMod_cast {a n : ℕ} (h : Nat.Coprime a n) (hn : 1 < n) :
    ((invMod a n : ℕ) : ZMod n) = (a : ZMod n)⁻¹ := by
  haveI : NeZero n := ⟨by omega⟩
  have hu : IsUnit (a : ZMod n) := (ZMod.isUnit_iff_coprime a n).mpr h
  have h1 : (a : ZMod n) * ((invMod a n : ℕ) : ZMod n) = 1 := by
    calc (a : ZMod n) * ((invMod a n : ℕ) : ZMod n)
        = ((a * invMod a n : ℕ) : ZMod n) := by push_cast; ring
      _ = ((a * invMod a n % n : ℕ) : ZMod n) := by rw [ZMod.natCast_mod]
      _ = 1 := by rw [invMod_mul_mod h hn]; norm_num
  calc ((invMod a n : ℕ) : ZMod n) = 1 * ((invMod a n : ℕ) : ZMod n) := by ring
    _ = ((a : ZMod n)⁻¹ * (a : ZMod n)) * ((invMod a n : ℕ) : ZMod n) := by
        rw [ZMod.inv_mul_of_unit _ hu]
    _ = (a : ZMod n)⁻¹ * ((a : ZMod n) * ((invMod a n : ℕ) : ZMod n)) := by ring
    _ = (a : ZMod n)⁻¹ := by rw [h1]; ring

/-- A fixed-width modular verification equation holds over the naturals
exactly when the corresponding Pedersen-style identity with a true modular
inverse holds in ZMod.  Shared shape of conditions (ii) and (iii) of the
Range Proof verifier. -/
theorem verify_cond_iff_zmod {nt b1 b2 zc wc e1 e2 e : ℕ} (hnt : 1 < nt)
    (hzc : Nat.Coprime zc nt) (hwc : wc < nt) :
    (wc = powMod b1 e1 nt * powMod b2 e2 nt % nt * powMod (invMod zc nt) e nt % nt ↔
      (wc : ZMod nt) = (b1 : ZMod nt) ^ e1 * (b2 : ZMod nt) ^ e2 *
        ((zc : ZMod nt)⁻¹) ^ e) := by
  have hX : ((powMod b1 e1 nt * powMod b2 e2 nt % nt *
        powMod (invMod zc nt) e nt % nt : ℕ) : ZMod nt) =
      (b1 : ZMod nt) ^ e1 * (b2 : ZMod nt) ^ e2 * ((zc : ZMod nt)⁻¹) ^ e := by
    push_cast [ZMod.natCast_mod, powMod_cast]
    rw [invMod_cast hzc hnt]
  constructor
  · intro hEq
    rw [hEq]
    exact hX
  · intro hEq
    exact nat_eq_of_zmod_eq (hEq.trans hX.symm) hwc (Nat.mod_lt _ (by omega))

/-- Claim C2: the Range Proof verifier returns MTA_OK if and only if s₁ ≤ q³,
w ≡ h₁^{s₁}·h₂^{s₂}·z^{−e} (mod Ñ) and u ≡ g^{s₁}·s^{N}·CT^{−e} (mod N²)
all hold (for a commitment whose components are reduced residues and whose
z and CT are coprime to their moduli), and returns MTA_FAIL in every other
case. -/
theorem MTA_RP_verify_spec (key : PAILLIER_public_key)
    (bc : COMMITMENTS_BC_priv_modulus) (q CT E : ℕ)
    (c : MTA_RP_commitment) (p : MTA_RP_proof)
    (hnt : 1 < bc.nt) (hn2 : 1 < key.n * key.n)
    (hz : Nat.Coprime c.z bc.nt) (hct : Nat.Coprime CT (key.n * key.n))
    (hw : c.w < bc.nt) (hu : c.u < key.n * key.n) :
    (MTA_RP_verify key bc q CT E c p = MTA_OK ↔
      (p.s1 ≤ q ^ 3 ∧
        (c.w : ZMod bc.nt) = (bc.h1 : ZMod bc.nt) ^ p.s1 * (bc.h2 : ZMod bc.nt) ^ p.s2 *
          ((c.z : ZMod bc.nt)⁻¹) ^ E ∧
        (c.u : ZMod (key.n * key.n)) = (key.g : ZMod (key.n * key.n)) ^ p.s1 *
          (p.s : ZMod (key.n * key.n)) ^ key.n * ((CT : ZMod (key.n * key.n))⁻¹) ^ E)) ∧
    (MTA_RP_verify key bc q CT E c p ≠ MTA_OK →
      MTA_RP_verify key bc q CT E c p = MTA_FAIL) := by
  have h2iff := @verify_cond_iff_zmod bc.nt bc.h1 bc.h2 c.z c.w p.s1 p.s2 E hnt hz hw
  have h3iff := @verify_cond_iff_zmod (key.n * key.n) key.g p.s CT c.u p.s1 key.n E
    hn2 hct hu
  have hfo : MTA_FAIL ≠ MTA_OK := by unfold MTA_FAIL MTA_OK; omega
  constructor
  · unfold MTA_RP_verify
    split_ifs with hcond
    · exact iff_of_true rfl ⟨hcond.1, h2iff.mp hcond.2.1, h3iff.mp hcond.2.2⟩
    · refine iff_of_false hfo ?_
      intro hc
      exact hcond ⟨hc.1, h2iff.mpr hc.2.1, h3iff.mpr hc.2.2⟩
  · intro hne
    unfold MTA_RP_verify at hne ⊢
    split_ifs at hne ⊢ with hcond
    · exact absurd rfl hne
    · rfl

/-- Witness for claim C2: the verifier characterization instantiated on a
small concrete key (n = 3, g = 4), BC modulus (Ñ = 7, h₁ = 3, h₂ = 2) and
transcript. -/
theorem MTA_RP_verify_spec_witness :
    (MTA_RP_verify ⟨3, 4⟩ ⟨7, 3, 2⟩ 2 2 1 ⟨2, 1, 1⟩ ⟨1, 1, 1⟩ = MTA_OK ↔
      ((1 : ℕ) ≤ 2 ^ 3 ∧
        ((1 : ℕ) : ZMod 7) = ((3 : ℕ) : ZMod 7) ^ 1 * ((2 : ℕ) : ZMod 7) ^ 1 *
          (((2 : ℕ) : ZMod 7)⁻¹) ^ 1 ∧
        ((1 : ℕ) : ZMod 9) = ((4 : ℕ) : ZMod 9) ^ 1 *
          ((1 : ℕ) : ZMod 9) ^ 3 * (((2 : ℕ) : ZMod 9)⁻¹) ^ 1)) ∧
    (MTA_RP_verify ⟨3, 4⟩ ⟨7, 3, 2⟩ 2 2 1 ⟨2, 1, 1⟩ ⟨1, 1, 1⟩ ≠ MTA_OK →
      MTA_RP_verify ⟨3, 4⟩ ⟨7, 3, 2⟩ 2 2 1 ⟨2, 1, 1⟩ ⟨1, 1, 1⟩ = MTA_FAIL) :=
  MTA_RP_verify_spec ⟨3, 4⟩ ⟨7, 3, 2⟩ 2 2 1 ⟨2, 1, 1⟩ ⟨1, 1, 1⟩
    (by decide) (by decide) (by decide) (by decide) (by decide) (by decide)

/-- Claim C3: on witnesses in their sampling ranges (α < q³, β < N, γ < q³Ñ,
ρ < qÑ) with β in Z*_N, MTA_RP_commit returns the commitment with
z = h₁^m·h₂^ρ mod Ñ, u = g^α·β^N mod N² — an element of Z*_{N²} — and
w = h₁^α·h₂^γ mod Ñ. -/
theorem MTA_RP_commit_spec (key : PAILLIER_private_key)
    (bc : COMMITMENTS_BC_pub_modulus) (q M : ℕ) (rv : MTA_RP_commitment_rv)
    (hn : 0 < key.n)
    (halpha : rv.alpha < q ^ 3) (hbeta : rv.beta < key.n)
    (hgamma : rv.gamma < q ^ 3 * bc.nt) (hrho : rv.rho < q * bc.nt)
    (hbco : Nat.Coprime rv.beta key.n) :
    (MTA_RP_commit none key bc q M rv).1.z =
        powMod bc.h1 M bc.nt * powMod bc.h2 rv.rho bc.nt % bc.nt ∧
    (MTA_RP_commit none key bc q M rv).1.u =
        powMod (key.n + 1) rv.alpha (key.n * key.n) *
          powMod rv.beta key.n (key.n * key.n) % (key.n * key.n) ∧
    (MTA_RP_commit none key bc q M rv).1.w =
        powMod bc.h1 rv.alpha bc.nt * powMod bc.h2 rv.gamma bc.nt % bc.nt ∧
    Nat.Coprime (MTA_RP_commit none key bc q M rv).1.u (key.n * key.n) := by
  refine ⟨rfl, rfl, rfl, ?_⟩
  have hsucc : Nat.Coprime (key.n + 1) key.n := by
    simp [Nat.coprime_self_add_left]
  have hgco : Nat.Coprime (key.n + 1) (key.n * key.n) := hsucc.mul_right hsucc
  have h1 : Nat.Coprime (powMod (key.n + 1) rv.alpha (key.n * key.n)) (key.n * key.n) :=
    coprime_mod_of_coprime (hgco.pow_left _)
  have hbn2 : Nat.Coprime rv.beta (key.n * key.n) := hbco.mul_right hbco
  have h2 : Nat.Coprime (powMod rv.beta key.n (key.n * key.n)) (key.n * key.n) :=
    coprime_mod_of_coprime (hbn2.pow_left _)
  exact coprime_mod_of_coprime (h1.mul h2)

/-- Witness for claim C3: the commitment equations on the toy private key
(n = 15) with BC modulus Ñ = 7 and in-range witnesses (α, β, γ, ρ) =
(1, 2, 3, 4). -/
theorem MTA_RP_commit_spec_witness :
    (MTA_RP_commit none toyPriv ⟨7, 3, 2⟩ 2 5 ⟨1, 2, 3, 4⟩).1.z =
        powMod 3 5 7 * powMod 2 4 7 % 7 ∧
    (MTA_RP_commit none toyPriv ⟨7, 3, 2⟩ 2 5 ⟨1, 2, 3, 4⟩).1.u =
        powMod 16 1 225 * powMod 2 15 225 % 225 ∧
    (MTA_RP_commit none toyPriv ⟨7, 3, 2⟩ 2 5 ⟨1, 2, 3, 4⟩).1.w =
        powMod 3 1 7 * powMod 2 3 7 % 7 ∧
    Nat.Coprime (MTA_RP_commit none toyPriv ⟨7, 3, 2⟩ 2 5 ⟨1, 2, 3, 4⟩).1.u 225 :=
  MTA_RP_commit_spec toyPriv ⟨7, 3, 2⟩ 2 5 ⟨1, 2, 3, 4⟩
    (by decide) (by decide) (by decide) (by decide) (by decide) (by decide)

/-! Receiver Zero Knowledge Proof layer (mta.h, Receiver ZKP API). -/

/-- Secret random values for the receiver ZKP commitment (mta.h
MTA_ZK_commitment_rv; also MTA_ZKWC_commitment_rv by typedef). -/
structure MTA_ZK_commitment_rv where
  alpha : ℕ
  beta : ℕ
  gamma : ℕ
  rho : ℕ
  rho1 : ℕ
  sigma : ℕ
  tau : ℕ

/-- Public commitment for the receiver ZKP (mta.h MTA_ZK_commitment). -/
structure MTA_ZK_commitment where
  z : ℕ
  z1 : ℕ
  t : ℕ
  v : ℕ
  w : ℕ

/-- Proof for the receiver ZKP (mta.h MTA_ZK_proof; also MTA_ZKWC_proof by
typedef). -/
structure MTA_ZK_proof where
  s : ℕ
  s1 : ℕ
  s2 : ℕ
  t1 : ℕ
  t2 : ℕ

/-- Commitment generation for the receiver ZKP (mta.h MTA_ZK_commit).
Modelled from the spec (4.D Commit, mta.c is not under src/): sample the
seven witnesses in their ranges — or, with a NULL RNG, read the supplied rv —
then z = h₁^x h₂^ρ, z₁ = h₁^α h₂^ρ₁, t = h₁^y h₂^σ, w = h₁^γ h₂^τ (mod Ñ)
and v = c₁^α g^γ β^N mod N².  Returns the commitment and the rv used. -/
def MTA_ZK_commit (RNG : Option csprng) (key : PAILLIER_public_key)
    (bc : COMMITMENTS_BC_pub_modulus) (q X Y C1 : ℕ) (rv : MTA_ZK_commitment_rv) :
    MTA_ZK_commitment × MTA_ZK_commitment_rv :=
  let rvu : MTA_ZK_commitment_rv := match RNG with
    | none => rv
    | some s => ⟨s.getD 0 0 % q ^ 3, s.getD 1 0 % key.n, s.getD 2 0 % key.n,
                 s.getD 3 0 % (q * bc.nt), s.getD 4 0 % (q ^ 3 * bc.nt),
                 s.getD 5 0 % (q * bc.nt), s.getD 6 0 % (q * bc.nt)⟩
  (⟨powMod bc.h1 X bc.nt * powMod bc.h2 rvu.rho bc.nt % bc.nt,
    powMod bc.h1 rvu.alpha bc.nt * powMod bc.h2 rvu.rho1 bc.nt % bc.nt,
    powMod bc.h1 Y bc.nt * powMod bc.h2 rvu.sigma bc.nt % bc.nt,
    powMod C1 rvu.alpha (key.n * key.n) * powMod key.g rvu.gamma (key.n * key.n)
        % (key.n * key.n) * powMod rvu.beta key.n (key.n * key.n) % (key.n * key.n),
    powMod bc.h1 rvu.gamma bc.nt * powMod bc.h2 rvu.tau bc.nt % bc.nt⟩, rvu)

/-- Proof generation for the receiver ZKP (mta.h MTA_ZK_prove).  Modelled from
the spec (4.D Prove, mta.c is not under src/): s = β·r^e mod N, s₁ = e·x + α,
s₂ = e·ρ + ρ₁, t₁ = e·y + γ, t₂ = e·σ + τ. -/
def MTA_ZK_prove (key : PAILLIER_public_key) (rv : MTA_ZK_commitment_rv)
    (X Y R E : ℕ) : MTA_ZK_proof :=
  ⟨rv.beta * powMod R E key.n % key.n, E * X + rv.alpha, E * rv.rho + rv.rho1,
   E * Y + rv.gamma, E * rv.sigma + rv.tau⟩

/-- Proof verification for the receiver ZKP (mta.h MTA_ZK_verify).  Modelled
from the spec (4.D Verify, mta.c is not under src/): accept, returning MTA_OK,
iff s₁ ≤ q³, z₁ = h₁^{s₁}h₂^{s₂}z^{−e} mod Ñ, w = h₁^{t₁}h₂^{t₂}t^{−e} mod Ñ
and v = c₁^{s₁}s^{N}g^{t₁}c₂^{−e} mod N²; return MTA_FAIL otherwise. -/
def MTA_ZK_verify (key : PAILLIER_private_key) (bc : COMMITMENTS_BC_priv_modulus)
    (q C1 C2 E : ℕ) (c : MTA_ZK_commitment) (p : MTA_ZK_proof) : ℕ :=
  if p.s1 ≤ q ^ 3 ∧
      c.z1 = powMod bc.h1 p.s1 bc.nt * powMod bc.h2 p.s2 bc.nt % bc.nt *
        powMod (invMod c.z bc.nt) E bc.nt % bc.nt ∧
      c.w = powMod bc.h1 p.t1 bc.nt * powMod bc.h2 p.t2 bc.nt % bc.nt *
        powMod (invMod c.t bc.nt) E bc.nt % bc.nt ∧
      c.v = powMod C1 p.s1 (key.n * key.n) * powMod p.s key.n (key.n * key.n)
          % (key.n * key.n) * powMod (key.n + 1) p.t1 (key.n * key.n) % (key.n * key.n) *
        powMod (invMod C2 (key.n * key.n)) E (key.n * key.n) % (key.n * key.n)
  then MTA_OK else MTA_FAIL

/-- Clean the memory containing the receiver ZKP random values (mta.h
MTA_ZK_commitment_rv_kill).  Modelled from the spec (invariant 3 and 8;
mta.c is not under src/). -/
def MTA_ZK_commitment_rv_kill (rv : MTA_ZK_commitment_rv) : MTA_ZK_commitment_rv :=
  ⟨0, 0, 0, 0, 0, 0, 0⟩

/-! Receiver ZKP with check (mta.h, ZKWC API).  The secp256k1 primitives are
external collaborators (spec 1), modelled at trait level: the curve group is
cyclic of prime order q, written additively as ZMod q with generator 1. -/

/-- Modelled from the spec: the secp256k1 generator in the trait-level cyclic
group of order q (spec 6 ecp_secp256k1). -/
def ecpGen (q : ℕ) : ZMod q := 1

/-- Modelled from the spec: secp256k1 scalar multiplication in the trait-level
cyclic group of order q (spec 6 ecp_secp256k1 scalar_mul). -/
def ecpMul (q k : ℕ) (P : ZMod q) : ZMod q := (k : ZMod q) * P

/-- Public commitment for the receiver ZKP with check (mta.h
MTA_ZKWC_commitment): the base ZK commitment plus the DLOG commitment U. -/
structure MTA_ZKWC_commitment (q : ℕ) where
  zkc : MTA_ZK_commitment
  U : ZMod q

/-- Commitment generation for the receiver ZKP with check (mta.h
MTA_ZKWC_commit).  Modelled from the spec (4.E, mta.c is not under src/):
the ZK commitment plus U = α·G. -/
def MTA_ZKWC_commit (RNG : Option csprng) (key : PAILLIER_public_key)
    (bc : COMMITMENTS_BC_pub_modulus) (q X Y C1 : ℕ) (rv : MTA_ZK_commitment_rv) :
    MTA_ZKWC_commitment q × MTA_ZK_commitment_rv :=
  let res := MTA_ZK_commit RNG key bc q X Y C1 rv
  (⟨res.1, ecpMul q res.2.alpha (ecpGen q)⟩, res.2)

/-- Proof generation for the receiver ZKP with check (mta.h MTA_ZKWC_prove):
identical to the base ZK proof (spec 4.E: "Proof fields are identical to
ZK"). -/
def MTA_ZKWC_prove (key : PAILLIER_public_key) (rv : MTA_ZK_commitment_rv)
    (X Y R E : ℕ) : MTA_ZK_proof :=
  MTA_ZK_prove key rv X Y R E

/-- Proof verification for the receiver ZKP with check (mta.h
MTA_ZKWC_verify).  Modelled from the spec (4.E, mta.c is not under src/): the
four ZK conditions plus U = s₁·G − e·X on the curve; the C code special-cases
the identity so that it is accepted only when both sides are the identity,
which in the group model is plain equality. -/
def MTA_ZKWC_verify (key : PAILLIER_private_key) (bc : COMMITMENTS_BC_priv_modulus)
    (q C1 C2 : ℕ) (X : ZMod q) (E : ℕ) (c : MTA_ZKWC_commitment q)
    (p : MTA_ZK_proof) : ℕ :=
  if MTA_ZK_verify key bc q C1 C2 E c.zkc p = MTA_OK ∧
      c.U = ecpMul q p.s1 (ecpGen q) - ecpMul q E X
  then MTA_OK else MTA_FAIL

/-- Clean the memory containing the ZKWC random values (mta.h
MTA_ZKWC_commitment_rv_kill, a wrapper over the ZK kill since the rv types
coincide by typedef). -/
def MTA_ZKWC_commitment_rv_kill (rv : MTA_ZK_commitment_rv) : MTA_ZK_commitment_rv :=
  MTA_ZK_commitment_rv_kill rv

/-- Claim C4: MTA_ZKWC_verify returns MTA_OK only if the ZK conditions and the
curve equation U = s₁·G − e·X all hold; and on an otherwise-honest transcript
for witness x = 2 (U = α·G, s₁ = e·2 + α) checked against the wrong public
point X = 3·G, it returns MTA_FAIL whenever e ≢ 0 (mod q). -/
theorem MTA_ZKWC_verify_dlog_check (key : PAILLIER_private_key)
    (bc : COMMITMENTS_BC_priv_modulus) (q C1v C2v : ℕ) (X : ZMod q) (E : ℕ)
    (c : MTA_ZKWC_commitment q) (p : MTA_ZK_proof) :
    (MTA_ZKWC_verify key bc q C1v C2v X E c p = MTA_OK →
      MTA_ZK_verify key bc q C1v C2v E c.zkc p = MTA_OK ∧
      c.U = ecpMul q p.s1 (ecpGen q) - ecpMul q E X) ∧
    (∀ alpha : ℕ, c.U = ecpMul q alpha (ecpGen q) → p.s1 = E * 2 + alpha →
      X = ecpMul q 3 (ecpGen q) → (E : ZMod q) ≠ 0 →
      MTA_ZKWC_verify key bc q C1v C2v X E c p = MTA_FAIL) := by
  constructor
  · intro h
    unfold MTA_ZKWC_verify at h
    split_ifs at h with hcond
    · exact hcond
    · exact absurd h (by unfold MTA_FAIL MTA_OK; omega)
  · intro alpha hU hs1 hX hE
    unfold MTA_ZKWC_verify
    split_ifs with hcond
    · exfalso
      apply hE
      have hec := hcond.2
      rw [hU, hs1, hX] at hec
      unfold ecpMul ecpGen at hec
      push_cast at hec
      linear_combination hec
    · rfl

/-- Witness for claim C4: at q = 5 with e = 1, an honest transcript for x = 2
(α = 1, so U = 1·G and s₁ = 3) verified against X = 3·G is rejected. -/
theorem MTA_ZKWC_verify_dlog_check_witness :
    MTA_ZKWC_verify toyPriv ⟨7, 3, 2⟩ 5 1 1 (ecpMul 5 3 (ecpGen 5)) 1
      ⟨⟨1, 1, 1, 1, 1⟩, ecpMul 5 1 (ecpGen 5)⟩ ⟨1, 3, 1, 1, 1⟩ = MTA_FAIL :=
  (MTA_ZKWC_verify_dlog_check toyPriv ⟨7, 3, 2⟩ 5 1 1 (ecpMul 5 3 (ecpGen 5)) 1
      ⟨⟨1, 1, 1, 1, 1⟩, ecpMul 5 1 (ecpGen 5)⟩ ⟨1, 3, 1, 1, 1⟩).2
    1 rfl (by decide) rfl (by decide)

/-! Marshalling facts (component 4.A) and the proof serializers. -/

/-- toBE always emits exactly its declared width. -/
theorem toBE_length (w n : ℕ) : (toBE w n).length = w := by
  induction w generalizing n with
  | zero => rfl
  | succ k ih => simp [toBE, ih]

/-- Appending one byte shifts the big-endian value by one base-256 digit. -/
theorem fromBE_append_byte (l : List ℕ) (b : ℕ) :
    fromBE (l ++ [b]) = fromBE l * 256 + b := by
  unfold fromBE
  rw [List.foldl_append]
  rfl

/-- fromBE inverts toBE up to reduction at the declared width. -/
theorem fromBE_toBE (w n : ℕ) : fromBE (toBE w n) = n % 256 ^ w := by
  induction w generalizing n with
  | zero => simp [toBE, fromBE, Nat.mod_one]
  | succ k ih =>
    rw [toBE, fromBE_append_byte, ih]
    rw [show (256 : ℕ) ^ (k + 1) = 256 * 256 ^ k by ring, Nat.mod_mul]
    ring

/-- fromBE inverts toBE exactly on values within the width. -/
theorem fromBE_toBE_of_lt {w n : ℕ} (h : n < 256 ^ w) : fromBE (toBE w n) = n := by
  rw [fromBE_toBE, Nat.mod_eq_of_lt h]

/-- Serializing zero gives the all-zero string. -/
theorem toBE_zero (w : ℕ) : toBE w 0 = List.replicate w 0 := by
  induction w with
  | zero => rfl
  | succ k ih => rw [toBE, Nat.zero_div, Nat.zero_mod, ih, List.replicate_succ']

/-- Left-zero-padding: a value fitting in k bytes serializes at width w as
w − k zero bytes followed by its k-byte serialization. -/
theorem toBE_pad {w k n : ℕ} (hk : k ≤ w) (hn : n < 256 ^ k) :
    toBE w n = List.replicate (w - k) 0 ++ toBE k n := by
  induction w generalizing k n with
  | zero =>
    have hk0 : k = 0 := Nat.le_zero.mp hk
    subst hk0
    simp
  | succ m ih =>
    cases k with
    | zero =>
      have hn0 : n = 0 := by omega
      subst hn0
      rw [toBE_zero]
      simp [toBE]
    | succ j =>
      have hj : j ≤ m := Nat.succ_le_succ_iff.mp hk
      have hdiv : n / 256 < 256 ^ j := by
        rw [Nat.div_lt_iff_lt_mul (by norm_num : (0:ℕ) < 256)]
        calc n < 256 ^ (j + 1) := hn
          _ = 256 ^ j * 256 := by ring
      rw [toBE, ih hj hdiv]
      rw [show m + 1 - (j + 1) = m - j from by omega]
      rw [show toBE (j + 1) n = toBE j (n / 256) ++ [n % 256] from rfl]
      rw [List.append_assoc]

/-- Dump the Range Proof to octets (mta.h MTA_RP_proof_toOctets).  Modelled
from the spec (6, serialization widths: s at 256, s₁ at 256, s₂ at 384 bytes;
mta.c is not under src/; the stated widths follow the spec table and the
FFLEN_2048-sized proof struct, not the mta.h parameter comment that calls S1
HFS_2048 long). -/
def MTA_RP_proof_toOctets (p : MTA_RP_proof) : List ℕ × List ℕ × List ℕ :=
  (toBE 256 p.s, toBE 256 p.s1, toBE 384 p.s2)

/-- Dump the receiver ZKP proof to octets (mta.h MTA_ZK_proof_toOctets; also
MTA_ZKWC_proof_toOctets).  Modelled from the spec (6: s, s₁, t₁ at 256 bytes,
s₂, t₂ at 384 bytes; mta.c is not under src/). -/
def MTA_ZK_proof_toOctets (p : MTA_ZK_proof) :
    List ℕ × List ℕ × List ℕ × List ℕ × List ℕ :=
  (toBE 256 p.s, toBE 256 p.s1, toBE 384 p.s2, toBE 256 p.t1, toBE 384 p.t2)

/-- Claim C9: the proof serializers emit s₁ (and, for the ZK variant, t₁) as a
fixed-width 256-byte big-endian string, left-zero-padded: the emitted octet
has length 256, decodes back to the value, and for a value fitting in k ≤ 256
bytes consists of 256 − k zero bytes followed by the k-byte big-endian form. -/
theorem proof_toOctets_s1_t1_width (p : MTA_RP_proof) (pz : MTA_ZK_proof)
    (k kz kt : ℕ) (hk : k ≤ 256) (hkz : kz ≤ 256) (hkt : kt ≤ 256)
    (hp : p.s1 < 256 ^ k) (hpz : pz.s1 < 256 ^ kz) (hpt : pz.t1 < 256 ^ kt) :
    ((MTA_RP_proof_toOctets p).2.1.length = 256 ∧
      fromBE (MTA_RP_proof_toOctets p).2.1 = p.s1 % 256 ^ 256 ∧
      (MTA_RP_proof_toOctets p).2.1 = List.replicate (256 - k) 0 ++ toBE k p.s1) ∧
    ((MTA_ZK_proof_toOctets pz).2.1.length = 256 ∧
      fromBE (MTA_ZK_proof_toOctets pz).2.1 = pz.s1 % 256 ^ 256 ∧
      (MTA_ZK_proof_toOctets pz).2.1 = List.replicate (256 - kz) 0 ++ toBE kz pz.s1) ∧
    ((MTA_ZK_proof_toOctets pz).2.2.2.1.length = 256 ∧
      fromBE (MTA_ZK_proof_toOctets pz).2.2.2.1 = pz.t1 % 256 ^ 256 ∧
      (MTA_ZK_proof_toOctets pz).2.2.2.1 = List.replicate (256 - kt) 0 ++ toBE kt pz.t1) :=
  ⟨⟨toBE_length 256 p.s1, fromBE_toBE 256 p.s1, toBE_pad hk hp⟩,
   ⟨toBE_length 256 pz.s1, fromBE_toBE 256 pz.s1, toBE_pad hkz hpz⟩,
   ⟨toBE_length 256 pz.t1, fromBE_toBE 256 pz.t1, toBE_pad hkt hpt⟩⟩

/-- Witness for claim C9: serialization widths checked on the concrete proofs
(s₁ = 300, t₁ = 5) with k = 2 and 1 significant bytes. -/
theorem proof_toOctets_s1_t1_width_witness :
    (((MTA_RP_proof_toOctets ⟨1, 300, 2⟩).2.1.length = 256 ∧
      fromBE (MTA_RP_proof_toOctets ⟨1, 300, 2⟩).2.1 = 300 % 256 ^ 256 ∧
      (MTA_RP_proof_toOctets ⟨1, 300, 2⟩).2.1 =
        List.replicate (256 - 2) 0 ++ toBE 2 300) ∧
    ((MTA_ZK_proof_toOctets ⟨1, 300, 2, 5, 3⟩).2.1.length = 256 ∧
      fromBE (MTA_ZK_proof_toOctets ⟨1, 300, 2, 5, 3⟩).2.1 = 300 % 256 ^ 256 ∧
      (MTA_ZK_proof_toOctets ⟨1, 300, 2, 5, 3⟩).2.1 =
        List.replicate (256 - 2) 0 ++ toBE 2 300) ∧
    ((MTA_ZK_proof_toOctets ⟨1, 300, 2, 5, 3⟩).2.2.2.1.length = 256 ∧
      fromBE (MTA_ZK_proof_toOctets ⟨1, 300, 2, 5, 3⟩).2.2.2.1 = 5 % 256 ^ 256 ∧
      (MTA_ZK_proof_toOctets ⟨1, 300, 2, 5, 3⟩).2.2.2.1 =
        List.replicate (256 - 1) 0 ++ toBE 1 5)) :=
  proof_toOctets_s1_t1_width ⟨1, 300, 2⟩ ⟨1, 300, 2, 5, 3⟩ 2 2 1
    (by decide) (by decide) (by decide) (by decide) (by decide) (by decide)

/-! Fiat–Shamir challenge derivation (component 4.F; the SHA-256 hasher is an
external collaborator, spec 1 and 6, modelled as an abstract digest
function). -/

/-- Modelled from the spec: the canonical transcript hashed by
MTA_ZK_challenge (mta.h: e = H(g | Ñ | h₁ | h₂ | q | c₁ | c₂ | z | z1 | t |
v | w); mta.c is not under src/), each field pre-padded to its canonical
fixed width (spec 6 table). -/
def MTA_ZK_challenge_transcript (key : PAILLIER_public_key)
    (bc : COMMITMENTS_BC_pub_modulus) (q C1 C2 : ℕ) (c : MTA_ZK_commitment) :
    List ℕ :=
  toBE 256 key.g ++ toBE 256 bc.nt ++ toBE 256 bc.h1 ++ toBE 256 bc.h2 ++
  toBE 32 q ++ toBE 512 C1 ++ toBE 512 C2 ++ toBE 256 c.z ++ toBE 256 c.z1 ++
  toBE 256 c.t ++ toBE 512 c.v ++ toBE 256 c.w

/-- Deterministic challenge generation for the receiver ZKP (mta.h
MTA_ZK_challenge).  Modelled from the spec (4.D Challenge and 4.F): the
digest of the canonical transcript interpreted as a big-endian integer and
reduced mod q. -/
def MTA_ZK_challenge (H : List ℕ → List ℕ) (key : PAILLIER_public_key)
    (bc : COMMITMENTS_BC_pub_modulus) (q C1 C2 : ℕ) (c : MTA_ZK_commitment) : ℕ :=
  fromBE (H (MTA_ZK_challenge_transcript key bc q C1 C2 c)) % q

/-- Modelled from the spec: the canonical transcript hashed by
MTA_ZKWC_challenge (mta.h: e = H(g | Ñ | h₁ | h₂ | q | c₁ | c₂ | U | z | z1 |
t | v | w), with U between c₂ and z; mta.c is not under src/); ecpBytes is
the 33-byte compressed-point serializer of the curve trait. -/
def MTA_ZKWC_challenge_transcript (key : PAILLIER_public_key)
    (bc : COMMITMENTS_BC_pub_modulus) (q : ℕ) (ecpBytes : ZMod q → List ℕ)
    (C1 C2 : ℕ) (c : MTA_ZKWC_commitment q) : List ℕ :=
  toBE 256 key.g ++ toBE 256 bc.nt ++ toBE 256 bc.h1 ++ toBE 256 bc.h2 ++
  toBE 32 q ++ toBE 512 C1 ++ toBE 512 C2 ++ ecpBytes c.U ++ toBE 256 c.zkc.z ++
  toBE 256 c.zkc.z1 ++ toBE 256 c.zkc.t ++ toBE 512 c.zkc.v ++ toBE 256 c.zkc.w

/-- Deterministic challenge generation for the receiver ZKP with check (mta.h
MTA_ZKWC_challenge).  Modelled from the spec (4.E and 4.F): the digest of the
canonical transcript — which includes U but not the public point X — reduced
mod q. -/
def MTA_ZKWC_challenge (H : List ℕ → List ℕ) (key : PAILLIER_public_key)
    (bc : COMMITMENTS_BC_pub_modulus) (q : ℕ) (ecpBytes : ZMod q → List ℕ)
    (_X : ZMod q) (C1 C2 : ℕ) (c : MTA_ZKWC_commitment q) : ℕ :=
  fromBE (H (MTA_ZKWC_challenge_transcript key bc q ecpBytes C1 C2 c)) % q

/-- Claim C5: MTA_ZKWC_challenge hashes exactly the fields g, Ñ, h₁, h₂, q,
CA, CB, U, z, z₁, t, v, w in that order, each at its canonical fixed width —
equivalently, the ZKWC transcript is the ZK transcript with the serialized U
inserted right after the first 2080 bytes (g through CB), i.e. between CB and
z — and the digest is interpreted big-endian and reduced mod q, so that the
challenge lies in [0, q) for every nonzero q (stated as q = 0 ∨ e < q). -/
theorem MTA_ZKWC_challenge_spec (H : List ℕ → List ℕ) (key : PAILLIER_public_key)
    (bc : COMMITMENTS_BC_pub_modulus) (q : ℕ) (ecpBytes : ZMod q → List ℕ)
    (X : ZMod q) (C1v C2v : ℕ) (c : MTA_ZKWC_commitment q) :
    (q = 0 ∨ MTA_ZKWC_challenge H key bc q ecpBytes X C1v C2v c < q) ∧
    MTA_ZKWC_challenge H key bc q ecpBytes X C1v C2v c =
      fromBE (H (MTA_ZKWC_challenge_transcript key bc q ecpBytes C1v C2v c)) % q ∧
    MTA_ZKWC_challenge_transcript key bc q ecpBytes C1v C2v c =
      (MTA_ZK_challenge_transcript key bc q C1v C2v c.zkc).take 2080 ++
        ecpBytes c.U ++ (MTA_ZK_challenge_transcript key bc q C1v C2v c.zkc).drop 2080 := by
  have hrange : q = 0 ∨ MTA_ZKWC_challenge H key bc q ecpBytes X C1v C2v c < q := by
    rcases Nat.eq_zero_or_pos q with h | h
    · exact Or.inl h
    · exact Or.inr (Nat.mod_lt _ h)
  refine ⟨hrange, rfl, ?_⟩
  have hzk : MTA_ZK_challenge_transcript key bc q C1v C2v c.zkc =
      (toBE 256 key.g ++ toBE 256 bc.nt ++ toBE 256 bc.h1 ++ toBE 256 bc.h2 ++
        toBE 32 q ++ toBE 512 C1v ++ toBE 512 C2v) ++
      (toBE 256 c.zkc.z ++ toBE 256 c.zkc.z1 ++ toBE 256 c.zkc.t ++
        toBE 512 c.zkc.v ++ toBE 256 c.zkc.w) := by
    unfold MTA_ZK_challenge_transcript
    simp [List.append_assoc]
  have hlen : (toBE 256 key.g ++ toBE 256 bc.nt ++ toBE 256 bc.h1 ++ toBE 256 bc.h2 ++
      toBE 32 q ++ toBE 512 C1v ++ toBE 512 C2v).length = 2080 := by
    simp [toBE_length]
  rw [hzk, List.take_left' hlen, List.drop_left' hlen]
  unfold MTA_ZKWC_challenge_transcript
  simp [List.append_assoc]

/-- Witness for claim C1: the round at q = 3, a = 1, b = 2, z = 2, r = 2,
r' = 4 on the toy key, where ALPHA + BETA ≡ 2 ≡ 1·2 (mod 3). -/
theorem mta_round_alpha_beta_witness :
    (Mta.MPC_MTA_CLIENT2 toyPriv 3
        (Mta.MPC_MTA_SERVER none toyPub 3 2 (Mta.MPC_MTA_CLIENT1 none toyPub 1 2).1 2 4).1
      + (Mta.MPC_MTA_SERVER none toyPub 3 2 (Mta.MPC_MTA_CLIENT1 none toyPub 1 2).1 2 4).2.1)
      % 3 = 1 * 2 % 3 :=
  mta_round_alpha_beta toyPub toyPriv 3 1 2 2 2 4 ⟨rfl, by decide⟩ rfl (by decide)
    (by decide) (by decide) (by decide) (by decide) (by decide) (by decide)

/-- Claim C6: with a NULL RNG every randomized operation reads its
pre-supplied randomness (R, Z, or the rv bundle) and uses it verbatim: each
output below is exactly the deterministic function of the inputs and the
supplied randomness, with the supplied values appearing unchanged in the
outputs.  The model's operations are pure functions of their arguments, so
two NULL-RNG runs on the same inputs and pre-supplied randomness are
definitionally identical. -/
theorem null_rng_uses_supplied (pub : PAILLIER_public_key)
    (key : PAILLIER_private_key) (bc : COMMITMENTS_BC_pub_modulus)
    (q a r b ca z r' m x y c1 : ℕ)
    (rv : MTA_RP_commitment_rv) (rvz : MTA_ZK_commitment_rv) :
    Mta.MPC_MTA_CLIENT1 none pub a r = (PAILLIER_ENCRYPT pub a r, r) ∧
    Mta.MPC_MTA_SERVER none pub q b ca z r' =
      (powMod ca b (pub.n * pub.n) * PAILLIER_ENCRYPT pub z r' % (pub.n * pub.n),
       (q - z % q) % q, z, r') ∧
    MTA_RP_commit none key bc q m rv =
      (⟨powMod bc.h1 m bc.nt * powMod bc.h2 rv.rho bc.nt % bc.nt,
        powMod (key.n + 1) rv.alpha (key.n * key.n) *
          powMod rv.beta key.n (key.n * key.n) % (key.n * key.n),
        powMod bc.h1 rv.alpha bc.nt * powMod bc.h2 rv.gamma bc.nt % bc.nt⟩, rv) ∧
    MTA_ZK_commit none pub bc q x y c1 rvz =
      (⟨powMod bc.h1 x bc.nt * powMod bc.h2 rvz.rho bc.nt % bc.nt,
        powMod bc.h1 rvz.alpha bc.nt * powMod bc.h2 rvz.rho1 bc.nt % bc.nt,
        powMod bc.h1 y bc.nt * powMod bc.h2 rvz.sigma bc.nt % bc.nt,
        powMod c1 rvz.alpha (pub.n * pub.n) * powMod pub.g rvz.gamma (pub.n * pub.n)
            % (pub.n * pub.n) * powMod rvz.beta pub.n (pub.n * pub.n) % (pub.n * pub.n),
        powMod bc.h1 rvz.gamma bc.nt * powMod bc.h2 rvz.tau bc.nt % bc.nt⟩, rvz) ∧
    MTA_ZKWC_commit none pub bc q x y c1 rvz =
      (⟨⟨powMod bc.h1 x bc.nt * powMod bc.h2 rvz.rho bc.nt % bc.nt,
         powMod bc.h1 rvz.alpha bc.nt * powMod bc.h2 rvz.rho1 bc.nt % bc.nt,
         powMod bc.h1 y bc.nt * powMod bc.h2 rvz.sigma bc.nt % bc.nt,
         powMod c1 rvz.alpha (pub.n * pub.n) * powMod pub.g rvz.gamma (pub.n * pub.n)
             % (pub.n * pub.n) * powMod rvz.beta pub.n (pub.n * pub.n) % (pub.n * pub.n),
         powMod bc.h1 rvz.gamma bc.nt * powMod bc.h2 rvz.tau bc.nt % bc.nt⟩,
        ecpMul q rvz.alpha (ecpGen q)⟩, rvz) :=
  ⟨rfl, rfl, rfl, rfl, rfl⟩

/-- Claim C8: after the rv kill operations, every secret component of the
randomness bundle reads as zero, for the RP bundle (α, β, γ, ρ) and the
ZK / ZKWC bundles (α, β, γ, ρ, ρ₁, σ, τ). -/
theorem commitment_rv_kill_zeroizes (rv : MTA_RP_commitment_rv)
    (rvz rvw : MTA_ZK_commitment_rv) :
    ((MTA_RP_commitment_rv_kill rv).alpha = 0 ∧ (MTA_RP_commitment_rv_kill rv).beta = 0 ∧
     (MTA_RP_commitment_rv_kill rv).gamma = 0 ∧ (MTA_RP_commitment_rv_kill rv).rho = 0) ∧
    ((MTA_ZK_commitment_rv_kill rvz).alpha = 0 ∧ (MTA_ZK_commitment_rv_kill rvz).beta = 0 ∧
     (MTA_ZK_commitment_rv_kill rvz).gamma = 0 ∧ (MTA_ZK_commitment_rv_kill rvz).rho = 0 ∧
     (MTA_ZK_commitment_rv_kill rvz).rho1 = 0 ∧ (MTA_ZK_commitment_rv_kill rvz).sigma = 0 ∧
     (MTA_ZK_commitment_rv_kill rvz).tau = 0) ∧
    ((MTA_ZKWC_commitment_rv_kill rvw).alpha = 0 ∧
     (MTA_ZKWC_commitment_rv_kill rvw).beta = 0 ∧
     (MTA_ZKWC_commitment_rv_kill rvw).gamma = 0 ∧
     (MTA_ZKWC_commitment_rv_kill rvw).rho = 0 ∧
     (MTA_ZKWC_commitment_rv_kill rvw).rho1 = 0 ∧
     (MTA_ZKWC_commitment_rv_kill rvw).sigma = 0 ∧
     (MTA_ZKWC_commitment_rv_kill rvw).tau = 0) :=
  ⟨⟨rfl, rfl, rfl, rfl⟩, ⟨rfl, rfl, rfl, rfl, rfl, rfl, rfl⟩,
   ⟨rfl, rfl, rfl, rfl, rfl, rfl, rfl⟩⟩

/-! Compressed point ingest for the ZKWC commitment (claim C7). -/

/-- Modelled from the spec: compressed-point ingest of the secp256k1 trait
(spec 6, from_bytes returning a point or invalid-ecp; the ECP backend is an
external collaborator, spec 1), over the Weierstrass curve y² = x³ + 7 mod p:
the encoding must be 33 bytes with parity prefix 2 or 3 and an in-range x
coordinate, and decompression searches for a square root of x³ + 7 with the
requested parity; any other byte string — wrong length, identity or other
prefix, x out of range, or x off the curve — is invalid. -/
def ECP_SECP256K1_fromOctet (p : ℕ) (b : List ℕ) : Option (ℕ × ℕ) :=
  if b.length = 33 ∧ (b.headI = 2 ∨ b.headI = 3) ∧ fromBE b.tail < p then
    match (List.range p).find? (fun y =>
        y * y % p == (fromBE b.tail ^ 3 + 7) % p && y % 2 == b.headI % 2) with
    | some y => some (fromBE b.tail, y)
    | none => none
  else none

/-- Read the ZKWC commitment from octets (mta.h
MTA_ZKWC_commitment_fromOctets).  Modelled from the spec (mta.h: returns
MTA_INVALID_ECP if U is not a valid ECP, MTA_OK otherwise; mta.c is not under
src/).  Returns the status, the base ZK commitment and the decoded point. -/
def MTA_ZKWC_commitment_fromOctets (p : ℕ) (U Z Z1 T V W : List ℕ) :
    ℕ × MTA_ZK_commitment × Option (ℕ × ℕ) :=
  match ECP_SECP256K1_fromOctet p U with
  | none => (MTA_INVALID_ECP, ⟨fromBE Z, fromBE Z1, fromBE T, fromBE V, fromBE W⟩, none)
  | some P => (MTA_OK, ⟨fromBE Z, fromBE Z1, fromBE T, fromBE V, fromBE W⟩, some P)

/-- Declarative characterization of a valid compressed secp256k1 point
encoding: 33 bytes, parity prefix 2 or 3, x below the field prime, and some
square root of x³ + 7 mod p with the prefix's parity. -/
def ValidECPEncoding (p : ℕ) (b : List ℕ) : Prop :=
  b.length = 33 ∧ (b.headI = 2 ∨ b.headI = 3) ∧ fromBE b.tail < p ∧
  ∃ y, y < p ∧ y * y % p = (fromBE b.tail ^ 3 + 7) % p ∧ y % 2 = b.headI % 2

/-- The executable decoder succeeds exactly on declaratively valid
encodings. -/
theorem fromOctet_isSome_iff (p : ℕ) (b : List ℕ) :
    (ECP_SECP256K1_fromOctet p b).isSome = true ↔ ValidECPEncoding p b := by
  unfold ECP_SECP256K1_fromOctet ValidECPEncoding
  split_ifs with hcond
  · obtain ⟨h1, h2, h3⟩ := hcond
    cases hfind : (List.range p).find? (fun y =>
        y * y % p == (fromBE b.tail ^ 3 + 7) % p && y % 2 == b.headI % 2) with
    | none =>
      simp only [hfind, Option.isSome_none]
      constructor
      · intro hfalse
        exact absurd hfalse (by simp)
      · rintro ⟨-, -, -, yv, hylt, hyeq, hypar⟩
        have hnone := List.find?_eq_none.mp hfind yv (List.mem_range.mpr hylt)
        simp [hyeq, hypar] at hnone
    | some yv =>
      simp only [hfind, Option.isSome_some]
      constructor
      · intro _
        have hyv := List.find?_some hfind
        simp only [Bool.and_eq_true, beq_iff_eq] at hyv
        exact ⟨h1, h2, h3, yv,
          List.mem_range.mp (List.mem_of_find?_eq_some hfind), hyv.1, hyv.2⟩
      · intro _
        trivial
  · simp only [Option.isSome_none]
    constructor
    · intro hfalse
      exact absurd hfalse (by simp)
    · rintro ⟨h1, h2, h3, -⟩
      exact absurd ⟨h1, h2, h3⟩ hcond

/-- Claim C7: MTA_ZKWC_commitment_fromOctets returns MTA_INVALID_ECP exactly
when the octet U does not decode to a valid compressed secp256k1 point
(wrong length, bad or identity prefix, x out of range, or no matching square
root of x³ + 7), and returns MTA_OK otherwise. -/
theorem MTA_ZKWC_commitment_fromOctets_spec (p : ℕ) (U Z Z1 T V W : List ℕ) :
    ((MTA_ZKWC_commitment_fromOctets p U Z Z1 T V W).1 = MTA_INVALID_ECP ↔
      ¬ ValidECPEncoding p U) ∧
    ((MTA_ZKWC_commitment_fromOctets p U Z Z1 T V W).1 = MTA_OK ↔
      ValidECPEncoding p U) := by
  have hiff := fromOctet_isSome_iff p U
  unfold MTA_ZKWC_commitment_fromOctets
  cases hdec : ECP_SECP256K1_fromOctet p U with
  | none =>
    have hnv : ¬ ValidECPEncoding p U := by
      rw [← hiff, hdec]
      simp
    exact ⟨iff_of_true rfl hnv, iff_of_false ((by omega : (62 : ℕ) ≠ 0) : _) fun hv => hnv hv⟩
  | some P =>
    have hv : ValidECPEncoding p U := by
      rw [← hiff, hdec]
      rfl
    exact ⟨iff_of_false ((by omega : (0 : ℕ) ≠ 62) : _) (not_not_intro hv), iff_of_true rfl hv⟩

namespace Mpc

/-- Octet-keyed client MtA first pass (mpc.h MPC_MTA_CLIENT1).  Modelled from
the spec (mpc.c is not under src/): the key material arrives as raw octets N
and G, the ciphertext CA = g^a·r^n mod n² is computed directly over their
big-endian values and emitted at width FS_4096 = 512 bytes, and 0 (= MTA_OK)
is returned as the status. -/
def MPC_MTA_CLIENT1 (RNG : Option csprng) (N G A R : List ℕ) : ℕ × List ℕ :=
  let n := fromBE N
  let r := match RNG with
    | none => fromBE R
    | some s => s.headI % n
  (0, toBE 512 (powMod (fromBE G) (fromBE A) (n * n) * powMod r n (n * n) % (n * n)))

/-- Octet-keyed server MtA (mpc.h MPC_MTA_SERVER).  Modelled from the spec
(mpc.c is not under src/): CB = CA^b · (g^z·r^n mod n²) mod n² at width 512
and BETA = (−z) mod q at width 32, status 0. -/
def MPC_MTA_SERVER (RNG : Option csprng) (N G B CA Z R : List ℕ) (q : ℕ) :
    ℕ × List ℕ × List ℕ :=
  let n := fromBE N
  let z := match RNG with
    | none => fromBE Z
    | some s => s.headI % q
  let r := match RNG with
    | none => fromBE R
    | some s => s.getD 1 0 % n
  (0, toBE 512 (powMod (fromBE CA) (fromBE B) (n * n) *
        (powMod (fromBE G) z (n * n) * powMod r n (n * n) % (n * n)) % (n * n)),
   toBE 32 ((q - z % q) % q))

/-- Octet-keyed client MtA second pass (mpc.h MPC_MTA_CLIENT2).  Modelled from
the spec (mpc.c is not under src/): the private key arrives as the raw octets
L = λ and M = μ, ALPHA = Dec(CB) mod q is emitted at width 32, status 0. -/
def MPC_MTA_CLIENT2 (N L M CB : List ℕ) (q : ℕ) : ℕ × List ℕ :=
  (0, toBE 32 (PAILLIER_DECRYPT (fromBE N) (fromBE L) (fromBE M) (fromBE CB) % q))

end Mpc

/-- Claim C10: on corresponding inputs — octets carrying the same key
material, shares and randomness as the structs — the octet-keyed MtA
functions of mpc.h compute the same CA, CB, BETA and ALPHA values as the
struct-keyed functions of mta.h, and return status 0. -/
theorem mpc_octet_refines_struct (RNG : Option csprng) (q : ℕ)
    (pub : PAILLIER_public_key) (priv : PAILLIER_private_key) (lam mu : ℕ)
    (N G A R B CA Z Rs L M CB : List ℕ)
    (hN : fromBE N = pub.n) (hG : fromBE G = pub.g)
    (hn : 0 < pub.n) (hnle : pub.n * pub.n ≤ 256 ^ 512)
    (hq : 0 < q) (hqle : q ≤ 256 ^ 32)
    (hdec : priv.dec = PAILLIER_DECRYPT pub.n lam mu)
    (hL : fromBE L = lam) (hM : fromBE M = mu) :
    fromBE (Mpc.MPC_MTA_CLIENT1 RNG N G A R).2 =
      (Mta.MPC_MTA_CLIENT1 RNG pub (fromBE A) (fromBE R)).1 ∧
    fromBE (Mpc.MPC_MTA_SERVER RNG N G B CA Z Rs q).2.1 =
      (Mta.MPC_MTA_SERVER RNG pub q (fromBE B) (fromBE CA) (fromBE Z) (fromBE Rs)).1 ∧
    fromBE (Mpc.MPC_MTA_SERVER RNG N G B CA Z Rs q).2.2 =
      (Mta.MPC_MTA_SERVER RNG pub q (fromBE B) (fromBE CA) (fromBE Z) (fromBE Rs)).2.1 ∧
    fromBE (Mpc.MPC_MTA_CLIENT2 N L M CB q).2 = Mta.MPC_MTA_CLIENT2 priv q (fromBE CB) ∧
    (Mpc.MPC_MTA_CLIENT1 RNG N G A R).1 = MTA_OK ∧
    (Mpc.MPC_MTA_SERVER RNG N G B CA Z Rs q).1 = MTA_OK ∧
    (Mpc.MPC_MTA_CLIENT2 N L M CB q).1 = MTA_OK := by
  have hn2 : 0 < pub.n * pub.n := Nat.mul_pos hn hn
  have hmodlt : ∀ v : ℕ, v % (pub.n * pub.n) < 256 ^ 512 :=
    fun v => lt_of_lt_of_le (Nat.mod_lt _ hn2) hnle
  have hqlt : ∀ v : ℕ, v % q < 256 ^ 32 :=
    fun v => lt_of_lt_of_le (Nat.mod_lt _ hq) hqle
  refine ⟨?_, ?_, ?_, ?_, rfl, rfl, rfl⟩
  · unfold Mpc.MPC_MTA_CLIENT1 Mta.MPC_MTA_CLIENT1 PAILLIER_ENCRYPT
    cases RNG with
    | none =>
      simp only [hN, hG]
      exact fromBE_toBE_of_lt (hmodlt _)
    | some s =>
      simp only [hN, hG]
      exact fromBE_toBE_of_lt (hmodlt _)
  · unfold Mpc.MPC_MTA_SERVER Mta.MPC_MTA_SERVER PAILLIER_ENCRYPT
    cases RNG with
    | none =>
      simp only [hN, hG]
      exact fromBE_toBE_of_lt (hmodlt _)
    | some s =>
      simp only [hN, hG]
      exact fromBE_toBE_of_lt (hmodlt _)
  · unfold Mpc.MPC_MTA_SERVER Mta.MPC_MTA_SERVER
    cases RNG with
    | none =>
      simp only [hN, hG]
      exact fromBE_toBE_of_lt (hqlt _)
    | some s =>
      simp only [hN, hG]
      exact fromBE_toBE_of_lt (hqlt _)
  · unfold Mpc.MPC_MTA_CLIENT2 Mta.MPC_MTA_CLIENT2
    simp only [hN, hL, hM, hdec]
    exact fromBE_toBE_of_lt (hqlt _)

/-- Witness for claim C10: the octet and struct MtA functions agree on the
toy key (n = 15 arriving as the octet [15], g = 16 as [16], λ = μ = 4) at
q = 3 with deterministic randomness. -/
theorem mpc_octet_refines_struct_witness :
    fromBE (Mpc.MPC_MTA_CLIENT1 none [15] [16] [1] [2]).2 =
      (Mta.MPC_MTA_CLIENT1 none toyPub (fromBE [1]) (fromBE [2])).1 ∧
    fromBE (Mpc.MPC_MTA_SERVER none [15] [16] [2] [38] [2] [4] 3).2.1 =
      (Mta.MPC_MTA_SERVER none toyPub 3 (fromBE [2]) (fromBE [38]) (fromBE [2])
        (fromBE [4])).1 ∧
    fromBE (Mpc.MPC_MTA_SERVER none [15] [16] [2] [38] [2] [4] 3).2.2 =
      (Mta.MPC_MTA_SERVER none toyPub 3 (fromBE [2]) (fromBE [38]) (fromBE [2])
        (fromBE [4])).2.1 ∧
    fromBE (Mpc.MPC_MTA_CLIENT2 [15] [4] [4] [38] 3).2 =
      Mta.MPC_MTA_CLIENT2 toyPriv 3 (fromBE [38]) ∧
    (Mpc.MPC_MTA_CLIENT1 none [15] [16] [1] [2]).1 = MTA_OK ∧
    (Mpc.MPC_MTA_SERVER none [15] [16] [2] [38] [2] [4] 3).1 = MTA_OK ∧
    (Mpc.MPC_MTA_CLIENT2 [15] [4] [4] [38] 3).1 = MTA_OK :=
  mpc_octet_refines_struct none 3 toyPub toyPriv 4 4 [15] [16] [1] [2] [2] [38] [2] [4]
    [4] [4] [38] rfl rfl (by decide)
    (le_trans (by decide : (225 : ℕ) ≤ 256 ^ 2) (Nat.pow_le_pow_right (by decide) (by decide)))
    (by decide)
    (le_trans (by decide : (3 : ℕ) ≤ 256 ^ 1) (Nat.pow_le_pow_right (by decide) (by decide)))
    rfl rfl rfl

end Milagro
